import Mathlib

/-!
Shallow embedding of `src/catalytic/src/query_metadata.rs` (crate `catalytic`).

The file embeds, from the source:
  * the three annotation types `Ttl`, `Timestamp`, `Timeout` and their
    `FromStr` implementations (Rust `i32`/`i64` decimal parsing is embedded
    as `parseRustSigned` with explicit signed bounds);
  * the data model `QueryMetadata`, `QueryType`, `ColumnInQuery`,
    `ParameterizedValue`, `ParameterizedColumnType`;
  * `query_columns`, with its external collaborators (`keyspace`,
    `query_collect_to_vec`, `sort_columns`, all outside this crate's core
    file) passed explicitly as a `Collaborators` record, following the
    spec's description of them as external interfaces.
-/

namespace Catalytic

/-- Error kinds of Rust's integer `FromStr` (`core::num::IntErrorKind`),
restricted to the kinds reachable from decimal `from_str`. -/
inductive IntParseError where
  | empty
  | invalidDigit
  | posOverflow
  | negOverflow
deriving DecidableEq

/-- Accumulate the decimal value of a digit list onto `acc`, failing on the
first non-digit character (per-character acceptance and value are those of
Rust's `char::to_digit(10)`).  Embeds the digit loop of Rust's
`from_str_radix`; the overflow checks of that loop are applied afterwards
to the exact value, which is equivalent because the accumulator is
monotone in the remaining digits. -/
def digitsFrom (acc : Nat) : List Char → Option Nat
  | [] => some acc
  | c :: cs =>
    if c.isDigit then digitsFrom (acc * 10 + (c.toNat - 48)) cs else none

/-- Decimal value of a nonempty all-digit character list, `none` otherwise. -/
def digitsVal (cs : List Char) : Option Nat :=
  match cs with
  | [] => none
  | _ => digitsFrom 0 cs

/-- Embeds Rust's `<iN as FromStr>::from_str` for a signed integer type with
inclusive range `[lo, hi]`: optional single leading sign, at least one
decimal digit, no other characters; a value outside the range is an
overflow error, never wrapped.  `""` gives `Empty`, a bare sign gives
`InvalidDigit`, as in `core::num::from_str_radix`. -/
def parseRustSigned (lo hi : Int) (s : String) : Except IntParseError Int :=
  match s.data with
  | [] => .error .empty
  | c :: rest =>
    if c = '+' ∨ c = '-' then
      if rest = [] then .error .invalidDigit
      else
        match digitsVal rest with
        | none => .error .invalidDigit
        | some m =>
          if c = '-' then
            if -(m : Int) < lo then .error .negOverflow else .ok (-(m : Int))
          else
            if (m : Int) > hi then .error .posOverflow else .ok (m : Int)
    else
      match digitsVal (c :: rest) with
      | none => .error .invalidDigit
      | some m =>
        if (m : Int) > hi then .error .posOverflow else .ok (m : Int)

def i32Min : Int := -(2 ^ 31)

def i32Max : Int := 2 ^ 31 - 1

def i64Min : Int := -(2 ^ 63)

def i64Max : Int := 2 ^ 63 - 1

/-- Rust `i32::from_str`. -/
def parseI32 (s : String) : Except IntParseError Int :=
  parseRustSigned i32Min i32Max s

/-- Rust `i64::from_str`. -/
def parseI64 (s : String) : Except IntParseError Int :=
  parseRustSigned i64Min i64Max s

/-- `pub enum Ttl { Parameterized, Fixed(i32) }`; the `Fixed` payload is an
`Int` kept inside the `i32` range by the parser. -/
inductive Ttl where
  | Parameterized
  | Fixed (value : Int)
deriving DecidableEq

/-- `pub enum Timestamp { Parameterized, Fixed(i64) }`. -/
inductive Timestamp where
  | Parameterized
  | Fixed (value : Int)
deriving DecidableEq

/-- `pub enum Timeout { Parameterized, Fixed(String) }`. -/
inductive Timeout where
  | Parameterized
  | Fixed (value : String)
deriving DecidableEq

/-- `impl FromStr for Ttl`: `"?"` gives `Parameterized`, anything else is
delegated to `i32` parsing. -/
def Ttl.fromStr (s : String) : Except IntParseError Ttl :=
  if s = "?" then .ok .Parameterized
  else (parseI32 s).map .Fixed

/-- `impl FromStr for Timestamp`: `"?"` gives `Parameterized`, anything else
is delegated to `i64` parsing. -/
def Timestamp.fromStr (s : String) : Except IntParseError Timestamp :=
  if s = "?" then .ok .Parameterized
  else (parseI64 s).map .Fixed

/-- `impl FromStr for Timeout`: `"?"` gives `Parameterized`, any other string
is accepted verbatim; `Err` is `()` and is never produced. -/
def Timeout.fromStr (s : String) : Except Unit Timeout :=
  if s = "?" then .ok .Parameterized
  else .ok (.Fixed s)

/-- Modelled from the spec: the resolved type of a column ("Parameterized
Column Type pairs a column's declared type with ..."); `ColumnType` lives in
`table_metadata.rs`, which is not part of the core file, so it is taken as
an opaque string-carrying record. -/
structure ColumnType where
  repr_name : String
deriving DecidableEq

/-- `pub struct ColumnInQuery` — a column reference inside a query. -/
structure ColumnInQuery where
  column_name : String
  parameterized : Bool
  uses_in_value : Bool
  is_part_of_where_clause : Bool
deriving DecidableEq

/-- `pub enum ParameterizedValue`. -/
inductive ParameterizedValue where
  | ExtractedColumn (col : ColumnInQuery)
  | UsingTtl
  | Limit
deriving DecidableEq

/-- `pub struct ParameterizedColumnType`. -/
structure ParameterizedColumnType where
  column_type : ColumnType
  value : ParameterizedValue
deriving DecidableEq

/-- `pub enum QueryType` — the closed classification set. -/
inductive QueryType where
  | SelectMultiple
  | SelectUniqueByLimit
  | SelectUnique
  | SelectCount
  | UpdateUnique
  | DeleteMultiple
  | DeleteUnique
  | InsertUnique
  | Truncate
deriving DecidableEq

/-- `pub struct QueryMetadata` — the metadata record of one analyzed query. -/
structure QueryMetadata where
  query : String
  extracted_columns : List ColumnInQuery
  parameterized_columns_types : List ParameterizedColumnType
  query_type : QueryType
  struct_name : String
  table_name : String
  limited : Bool
  ttl : Option Ttl
  timestamp : Option Timestamp
  timeout : Option Timeout
deriving DecidableEq

/-- The invariant stated by the spec for truncation queries: a `Truncate`
metadata value carries no extracted columns and no TTL/timestamp
annotation.  The `QueryMetadata` type itself does not enforce it. -/
def truncateInvariant (qm : QueryMetadata) : Prop :=
  qm.query_type = .Truncate →
    qm.extracted_columns = [] ∧ qm.ttl = none ∧ qm.timestamp = none

instance (qm : QueryMetadata) : Decidable (truncateInvariant qm) := by
  unfold truncateInvariant; infer_instance

/-- Modelled from the spec: a catalog column row ("Catalog Column (external
type, consumed not owned): column name, kind (partition key / clustering
key / regular / static), ordinal position, data type"); the Rust type
`ColumnInTable` lives in `table_metadata.rs`, which is not part of the core
file. -/
structure ColumnInTable where
  column_name : String
  kind : String
  position : Int
  data_type : String
deriving DecidableEq

/-- Modelled from the spec: a bound parameter value accepted by the
execution collaborator; `query_columns` only ever passes an empty list of
these. -/
structure BoundValue where
  repr_value : String
deriving DecidableEq

/-- The external collaborators of `query_columns`, per the spec's §6
interfaces: the configuration collaborator's keyspace accessor (a string),
the execution collaborator `query_collect_to_vec` (query text plus bound
parameters to rows), and the sort collaborator `sort_columns` (Rust sorts
in place; embedded as a function on the list). -/
structure Collaborators where
  keyspace : String
  query_collect_to_vec : String → List BoundValue → List ColumnInTable
  sort_columns : List ColumnInTable → List ColumnInTable

/-- A single ASCII apostrophe, the quote used around the interpolated
keyspace and table names in the introspection query text. -/
def sq : String := String.singleton (Char.ofNat 39)

/-- ASCII lowercase mapping of one character.  Embeds the behavior of Rust's
`char` lowercasing on the ASCII range (Rust's `str::to_lowercase` applies
the Unicode mapping; the model covers its ASCII fragment). -/
def asciiLower (c : Char) : Char :=
  if 65 ≤ c.toNat ∧ c.toNat ≤ 90 then Char.ofNat (c.toNat + 32) else c

/-- Embeds `str::to_lowercase` (on its ASCII behavior). -/
def rustToLowercase (s : String) : String :=
  ⟨s.data.map asciiLower⟩

/-- The introspection query text built by `query_columns`'s `format!` call,
given the keyspace string and the already-lowercased table name. -/
def introspectionQueryText (ks tableLower : String) : String :=
  "select column_name, kind, position, type as data_type from system_schema.columns where keyspace_name = "
    ++ sq ++ ks ++ sq ++ " and table_name = " ++ sq ++ tableLower ++ sq

/-- `pub fn query_columns(table: &str) -> Vec<ColumnInTable>`: build the
introspection query for the lower-cased table name, run it through the
execution collaborator with no bound parameters, sort, return. -/
def query_columns (env : Collaborators) (table : String) : List ColumnInTable :=
  let query := introspectionQueryText env.keyspace (rustToLowercase table)
  let collected := env.query_collect_to_vec query []
  env.sort_columns collected

/-- The introspection query text as the spec's §6 words it: `select
column_name, kind, position, type as data_type from system_schema.columns
where keyspace_name = '<keyspace>' and table_name = '<table>'`, with
`<keyspace>` from configuration and `<table>` the lower-cased input. -/
def specIntrospectionQuery (ks table : String) : String :=
  "select column_name, kind, position, type as data_type from system_schema.columns where keyspace_name = "
    ++ sq ++ ks ++ sq ++ " and table_name = " ++ sq ++ rustToLowercase table ++ sq

deriving instance DecidableEq for Except

/-- Positional decimal value of a character list accumulated onto `acc`,
reading every character as a digit (`c.toNat - 48`); meaningful on all-digit
lists. -/
def decimalValFrom (acc : Nat) : List Char → Nat
  | [] => acc
  | c :: cs => decimalValFrom (acc * 10 + (c.toNat - 48)) cs

/-- Positional decimal value of a character list. -/
def decimalVal (cs : List Char) : Nat := decimalValFrom 0 cs

/-- Every character of the list is an ASCII decimal digit. -/
def allDigits (cs : List Char) : Prop := ∀ c ∈ cs, c.isDigit

instance (cs : List Char) : Decidable (allDigits cs) := by
  unfold allDigits; infer_instance

/-- `s` is a well-formed decimal representation of the integer `v`: a
nonempty digit run, optionally preceded by a single `+` or `-` sign.  This
is the grammar Rust's signed `from_str` accepts, stated independently of
the parser. -/
def representsInt (s : String) (v : Int) : Prop :=
  (s.data ≠ [] ∧ allDigits s.data ∧ v = (decimalVal s.data : Int)) ∨
    (∃ cs, s.data = '+' :: cs ∧ cs ≠ [] ∧ allDigits cs ∧ v = (decimalVal cs : Int)) ∨
    (∃ cs, s.data = '-' :: cs ∧ cs ≠ [] ∧ allDigits cs ∧ v = -(decimalVal cs : Int))

/-- Digits of `n` in base 10, most significant first, with explicit fuel
(`fuel > n` suffices); fuel keeps the definition structurally recursive so
that it evaluates by kernel reduction. -/
def natToDigitsAux : Nat → Nat → List Char
  | 0, _ => []
  | fuel + 1, n =>
    if n < 10 then [Nat.digitChar n]
    else natToDigitsAux fuel (n / 10) ++ [Nat.digitChar (n % 10)]

/-- Decimal digit string of a natural number, most significant first. -/
def natToDigits (n : Nat) : List Char := natToDigitsAux (n + 1) n

/-- Decimal rendering of an integer, as Rust's `Display` for `i32`/`i64`
produces it: a `-` sign for negatives followed by the digits of the
absolute value. -/
def intToDecimalString (v : Int) : String :=
  if v < 0 then ⟨'-' :: natToDigits v.natAbs⟩ else ⟨natToDigits v.toNat⟩

/-- A `QueryMetadata` value with `query_type = Truncate` that carries an
extracted column and a TTL annotation; the type admits it since no
constructor-side validation exists in the core. -/
def truncateViolating : QueryMetadata :=
  ⟨"truncate person", [⟨"name", true, false, true⟩], [], .Truncate,
    "TruncatePerson", "person", false, some (.Fixed 5), none, none⟩

/-- A `QueryMetadata` value with `query_type = Truncate` satisfying the
spec's truncation invariant. -/
def truncateGood : QueryMetadata :=
  ⟨"truncate person", [], [], .Truncate, "TruncatePerson", "person",
    false, none, none, none⟩

/-- A concrete collaborator environment: keyspace `ks`, an execution
collaborator returning no rows, identity sort. -/
def envA : Collaborators := ⟨"ks", fun _ _ => [], fun l => l⟩

/-- A second collaborator environment giving responses identical to
`envA`'s, written with syntactically different functions. -/
def envB : Collaborators := ⟨"ks", fun _ _ => [].reverse, id⟩

lemma digitsFrom_cons (acc : Nat) (c : Char) (cs : List Char) :
    digitsFrom acc (c :: cs)
      = if c.isDigit then digitsFrom (acc * 10 + (c.toNat - 48)) cs
        else none := rfl

lemma decimalValFrom_cons (acc : Nat) (c : Char) (cs : List Char) :
    decimalValFrom acc (c :: cs)
      = decimalValFrom (acc * 10 + (c.toNat - 48)) cs := rfl

lemma digitsFrom_of_allDigits :
    ∀ (cs : List Char) (acc : Nat), allDigits cs →
      digitsFrom acc cs = some (decimalValFrom acc cs) := by
  intro cs
  induction cs with
  | nil => intro acc _; rfl
  | cons c cs ih =>
    intro acc h
    have hc : c.isDigit := h c (List.mem_cons_self c cs)
    have htail : allDigits cs := fun x hx => h x (List.mem_cons_of_mem c hx)
    rw [digitsFrom_cons, if_pos hc, decimalValFrom_cons]
    exact ih _ htail

lemma digitsFrom_some :
    ∀ (cs : List Char) (acc m : Nat), digitsFrom acc cs = some m →
      allDigits cs ∧ m = decimalValFrom acc cs := by
  intro cs
  induction cs with
  | nil =>
    intro acc m h
    refine ⟨fun c hc => absurd hc (List.not_mem_nil c), ?_⟩
    exact (Option.some.inj h).symm
  | cons c cs ih =>
    intro acc m h
    by_cases hc : c.isDigit
    · rw [digitsFrom_cons, if_pos hc] at h
      obtain ⟨hall, hm⟩ := ih _ _ h
      refine ⟨?_, by rw [decimalValFrom_cons]; exact hm⟩
      intro x hx
      rcases List.mem_cons.mp hx with rfl | hx
      · exact hc
      · exact hall x hx
    · rw [digitsFrom_cons, if_neg hc] at h
      exact Option.noConfusion h

lemma digitsVal_of_allDigits {cs : List Char} (h1 : cs ≠ []) (h2 : allDigits cs) :
    digitsVal cs = some (decimalVal cs) := by
  cases cs with
  | nil => exact absurd rfl h1
  | cons c cs => exact digitsFrom_of_allDigits (c :: cs) 0 h2

lemma digitsVal_some {cs : List Char} {m : Nat} (h : digitsVal cs = some m) :
    cs ≠ [] ∧ allDigits cs ∧ m = decimalVal cs := by
  cases cs with
  | nil => exact absurd h (by simp [digitsVal])
  | cons c cs =>
    obtain ⟨hall, hm⟩ := digitsFrom_some (c :: cs) 0 m h
    exact ⟨List.cons_ne_nil c cs, hall, hm⟩

lemma parseRustSigned_nil (lo hi : Int) :
    parseRustSigned lo hi ⟨[]⟩ = .error .empty := rfl

lemma parseRustSigned_cons (lo hi : Int) (c : Char) (rest : List Char) :
    parseRustSigned lo hi ⟨c :: rest⟩
      = if c = '+' ∨ c = '-' then
          if rest = [] then .error .invalidDigit
          else
            match digitsVal rest with
            | none => .error .invalidDigit
            | some m =>
              if c = '-' then
                if -(m : Int) < lo then .error .negOverflow
                else .ok (-(m : Int))
              else
                if (m : Int) > hi then .error .posOverflow else .ok (m : Int)
        else
          match digitsVal (c :: rest) with
          | none => .error .invalidDigit
          | some m =>
            if (m : Int) > hi then .error .posOverflow
            else .ok (m : Int) := rfl

lemma parse_ok_of_represents {lo hi : Int} {s : String} {v : Int}
    (h : representsInt s v) (hlo : lo ≤ v) (hhi : v ≤ hi) :
    parseRustSigned lo hi s = .ok v := by
  obtain ⟨data⟩ := s
  rcases h with ⟨hne, hall, hv⟩ | ⟨cs, hdata, hne, hall, hv⟩ |
    ⟨cs, hdata, hne, hall, hv⟩
  · cases data with
    | nil => exact absurd rfl hne
    | cons c rest =>
      have hc : c.isDigit := hall c (List.mem_cons_self c rest)
      have hsign : ¬(c = '+' ∨ c = '-') := by
        rintro (rfl | rfl) <;> exact absurd hc (by decide)
      have hval : digitsVal (c :: rest) = some (decimalVal (c :: rest)) :=
        digitsVal_of_allDigits (List.cons_ne_nil c rest) hall
      have hv2 : v = ((decimalVal (c :: rest) : Nat) : Int) := hv
      rw [parseRustSigned_cons, if_neg hsign]
      simp only [hval]
      rw [if_neg (by omega : ¬((decimalVal (c :: rest) : Int) > hi)), hv2]
  · have hd2 : data = '+' :: cs := hdata
    subst hd2
    have hval : digitsVal cs = some (decimalVal cs) :=
      digitsVal_of_allDigits hne hall
    rw [parseRustSigned_cons, if_pos (Or.inl rfl), if_neg hne]
    simp only [hval]
    rw [if_neg (by decide : ¬(('+' : Char) = '-'))]
    rw [if_neg (by omega : ¬((decimalVal cs : Int) > hi)), hv]
  · have hd2 : data = '-' :: cs := hdata
    subst hd2
    have hval : digitsVal cs = some (decimalVal cs) :=
      digitsVal_of_allDigits hne hall
    rw [parseRustSigned_cons, if_pos (Or.inr rfl), if_neg hne]
    simp only [hval]
    rw [if_pos trivial]
    rw [if_neg (by omega : ¬(-((decimalVal cs : Nat) : Int) < lo)), hv]

lemma represents_of_parse_ok {lo hi : Int} (hlo : lo ≤ 0) (hhi : 0 ≤ hi)
    {s : String} {v : Int} (h : parseRustSigned lo hi s = .ok v) :
    representsInt s v ∧ lo ≤ v ∧ v ≤ hi := by
  obtain ⟨data⟩ := s
  cases data with
  | nil =>
    rw [parseRustSigned_nil] at h
    exact Except.noConfusion h
  | cons c rest =>
    rw [parseRustSigned_cons] at h
    by_cases hsign : c = '+' ∨ c = '-'
    · rw [if_pos hsign] at h
      by_cases hrest : rest = []
      · rw [if_pos hrest] at h
        exact Except.noConfusion h
      · rw [if_neg hrest] at h
        cases hd : digitsVal rest with
        | none =>
          simp only [hd] at h
          exact Except.noConfusion h
        | some m =>
          simp only [hd] at h
          obtain ⟨hne, hall, hm⟩ := digitsVal_some hd
          by_cases hneg : c = '-'
          · rw [if_pos hneg] at h
            by_cases hlt : -(m : Int) < lo
            · rw [if_pos hlt] at h
              exact Except.noConfusion h
            · rw [if_neg hlt] at h
              have hv := Except.ok.inj h
              subst hneg
              refine ⟨Or.inr (Or.inr ⟨rest, rfl, hne, hall, by omega⟩),
                by omega, by omega⟩
          · have hplus : c = '+' := hsign.resolve_right hneg
            rw [if_neg hneg] at h
            by_cases hgt : (m : Int) > hi
            · rw [if_pos hgt] at h
              exact Except.noConfusion h
            · rw [if_neg hgt] at h
              have hv := Except.ok.inj h
              subst hplus
              refine ⟨Or.inr (Or.inl ⟨rest, rfl, hne, hall, by omega⟩),
                by omega, by omega⟩
    · rw [if_neg hsign] at h
      cases hd : digitsVal (c :: rest) with
      | none =>
        simp only [hd] at h
        exact Except.noConfusion h
      | some m =>
        simp only [hd] at h
        obtain ⟨hne, hall, hm⟩ := digitsVal_some hd
        by_cases hgt : (m : Int) > hi
        · rw [if_pos hgt] at h
          exact Except.noConfusion h
        · rw [if_neg hgt] at h
          have hv := Except.ok.inj h
          have hb : decimalVal (String.mk (c :: rest)).data
              = decimalVal (c :: rest) := rfl
          exact ⟨Or.inl ⟨List.cons_ne_nil c rest, hall, by omega⟩,
            by omega, by omega⟩

lemma represents_ne_qmark {s : String} {v : Int} (h : representsInt s v) :
    s ≠ "?" := by
  rintro rfl
  rcases h with ⟨hne, hall, hv⟩ | ⟨cs, hdata, _, _, _⟩ | ⟨cs, hdata, _, _, _⟩
  · exact absurd (hall '?' (by decide)) (by decide)
  · have h2 : ('?' :: ([] : List Char)) = '+' :: cs := hdata
    exact absurd (List.head_eq_of_cons_eq h2) (by decide)
  · have h2 : ('?' :: ([] : List Char)) = '-' :: cs := hdata
    exact absurd (List.head_eq_of_cons_eq h2) (by decide)

lemma not_represents_of_qmark_mem {s : String} {v : Int} (hc : '?' ∈ s.data) :
    ¬ representsInt s v := by
  intro h
  rcases h with ⟨_, hall, _⟩ | ⟨cs, hdata, _, hall, _⟩ | ⟨cs, hdata, _, hall, _⟩
  · exact absurd (hall '?' hc) (by decide)
  · rw [hdata] at hc
    rcases List.mem_cons.mp hc with h1 | h1
    · exact absurd h1 (by decide)
    · exact absurd (hall '?' h1) (by decide)
  · rw [hdata] at hc
    rcases List.mem_cons.mp hc with h1 | h1
    · exact absurd h1 (by decide)
    · exact absurd (hall '?' h1) (by decide)

lemma Ttl_fromStr_fixed {s : String} {v : Int} (h : representsInt s v)
    (h1 : i32Min ≤ v) (h2 : v ≤ i32Max) : Ttl.fromStr s = .ok (.Fixed v) := by
  simp only [Ttl.fromStr, if_neg (represents_ne_qmark h), parseI32]
  rw [parse_ok_of_represents h h1 h2]
  rfl

lemma Timestamp_fromStr_fixed {s : String} {v : Int} (h : representsInt s v)
    (h1 : i64Min ≤ v) (h2 : v ≤ i64Max) :
    Timestamp.fromStr s = .ok (.Fixed v) := by
  simp only [Timestamp.fromStr, if_neg (represents_ne_qmark h), parseI64]
  rw [parse_ok_of_represents h h1 h2]
  rfl

lemma Timeout_fromStr_fixed {s : String} (hq : s ≠ "?") :
    Timeout.fromStr s = .ok (.Fixed s) := by
  simp only [Timeout.fromStr, if_neg hq]

lemma Ttl_fromStr_error {s : String} (hq : s ≠ "?")
    (h : ∀ v : Int, representsInt s v → ¬(i32Min ≤ v ∧ v ≤ i32Max)) :
    ∃ e, Ttl.fromStr s = .error e := by
  simp only [Ttl.fromStr, if_neg hq, parseI32]
  cases hp : parseRustSigned i32Min i32Max s with
  | error e => exact ⟨e, rfl⟩
  | ok w =>
    obtain ⟨hr, hb1, hb2⟩ :=
      represents_of_parse_ok (by decide) (by decide) hp
    exact absurd ⟨hb1, hb2⟩ (h w hr)

lemma Timestamp_fromStr_error {s : String} (hq : s ≠ "?")
    (h : ∀ v : Int, representsInt s v → ¬(i64Min ≤ v ∧ v ≤ i64Max)) :
    ∃ e, Timestamp.fromStr s = .error e := by
  simp only [Timestamp.fromStr, if_neg hq, parseI64]
  cases hp : parseRustSigned i64Min i64Max s with
  | error e => exact ⟨e, rfl⟩
  | ok w =>
    obtain ⟨hr, hb1, hb2⟩ :=
      represents_of_parse_ok (by decide) (by decide) hp
    exact absurd ⟨hb1, hb2⟩ (h w hr)

lemma Ttl_fromStr_ok_fixed {s : String} {n : Int}
    (h : Ttl.fromStr s = .ok (.Fixed n)) :
    representsInt s n ∧ i32Min ≤ n ∧ n ≤ i32Max := by
  by_cases hq : s = "?"
  · rw [hq] at h
    simp only [Ttl.fromStr, if_pos rfl] at h
    exact absurd (Except.ok.inj h) (fun hh => Ttl.noConfusion hh)
  · simp only [Ttl.fromStr, if_neg hq, parseI32] at h
    cases hp : parseRustSigned i32Min i32Max s with
    | error e =>
      rw [hp] at h
      exact Except.noConfusion h
    | ok w =>
      rw [hp] at h
      have hw : Ttl.Fixed w = Ttl.Fixed n := Except.ok.inj h
      have hwn : w = n := by injection hw
      subst hwn
      exact represents_of_parse_ok (by decide) (by decide) hp

lemma Timestamp_fromStr_ok_fixed {s : String} {n : Int}
    (h : Timestamp.fromStr s = .ok (.Fixed n)) :
    representsInt s n ∧ i64Min ≤ n ∧ n ≤ i64Max := by
  by_cases hq : s = "?"
  · rw [hq] at h
    simp only [Timestamp.fromStr, if_pos rfl] at h
    exact absurd (Except.ok.inj h) (fun hh => Timestamp.noConfusion hh)
  · simp only [Timestamp.fromStr, if_neg hq, parseI64] at h
    cases hp : parseRustSigned i64Min i64Max s with
    | error e =>
      rw [hp] at h
      exact Except.noConfusion h
    | ok w =>
      rw [hp] at h
      have hw : Timestamp.Fixed w = Timestamp.Fixed n := Except.ok.inj h
      have hwn : w = n := by injection hw
      subst hwn
      exact represents_of_parse_ok (by decide) (by decide) hp

lemma asciiLower_idem (c : Char) : asciiLower (asciiLower c) = asciiLower c := by
  by_cases h : 65 ≤ c.toNat ∧ c.toNat ≤ 90
  · rw [show asciiLower c = Char.ofNat (c.toNat + 32) from if_pos h]
    have h1 := h.1
    have h2 := h.2
    set n := c.toNat with hn
    interval_cases n <;> decide
  · rw [show asciiLower c = c from if_neg h, show asciiLower c = c from if_neg h]

lemma rustToLowercase_idem (s : String) :
    rustToLowercase (rustToLowercase s) = rustToLowercase s := by
  unfold rustToLowercase
  congr 1
  show (s.data.map asciiLower).map asciiLower = s.data.map asciiLower
  rw [List.map_map]
  exact List.map_congr_left (fun a _ => asciiLower_idem a)

lemma decimalValFrom_append (xs ys : List Char) :
    ∀ acc, decimalValFrom acc (xs ++ ys)
      = decimalValFrom (decimalValFrom acc xs) ys := by
  induction xs with
  | nil => intro acc; rfl
  | cons c cs ih =>
    intro acc
    rw [List.cons_append, decimalValFrom_cons, decimalValFrom_cons, ih]

lemma digitChar_isDigit {d : Nat} (h : d < 10) : (Nat.digitChar d).isDigit := by
  interval_cases d <;> decide

lemma digitChar_toNat {d : Nat} (h : d < 10) :
    (Nat.digitChar d).toNat - 48 = d := by
  interval_cases d <;> decide

lemma natToDigitsAux_succ (fuel n : Nat) :
    natToDigitsAux (fuel + 1) n
      = if n < 10 then [Nat.digitChar n]
        else natToDigitsAux fuel (n / 10) ++ [Nat.digitChar (n % 10)] := rfl

lemma natToDigitsAux_spec :
    ∀ (fuel n : Nat), n < fuel →
      natToDigitsAux fuel n ≠ [] ∧ allDigits (natToDigitsAux fuel n) ∧
        decimalVal (natToDigitsAux fuel n) = n := by
  intro fuel
  induction fuel with
  | zero => intro n h; exact absurd h (Nat.not_lt_zero n)
  | succ fuel ih =>
    intro n h
    rw [natToDigitsAux_succ]
    by_cases h10 : n < 10
    · rw [if_pos h10]
      refine ⟨List.cons_ne_nil _ _, ?_, ?_⟩
      · intro x hx
        rw [List.mem_singleton.mp hx]
        exact digitChar_isDigit h10
      · show decimalValFrom 0 [Nat.digitChar n] = n
        rw [decimalValFrom_cons]
        show 0 * 10 + ((Nat.digitChar n).toNat - 48) = n
        rw [digitChar_toNat h10]
        omega
    · rw [if_neg h10]
      have hdiv : n / 10 < fuel := by omega
      obtain ⟨hne, hall, hval⟩ := ih (n / 10) hdiv
      have hmod : n % 10 < 10 := Nat.mod_lt n (by omega)
      refine ⟨by simp, ?_, ?_⟩
      · intro x hx
        rcases List.mem_append.mp hx with h1 | h1
        · exact hall x h1
        · rw [List.mem_singleton.mp h1]
          exact digitChar_isDigit hmod
      · show decimalValFrom 0 (natToDigitsAux fuel (n / 10)
            ++ [Nat.digitChar (n % 10)]) = n
        rw [decimalValFrom_append, decimalValFrom_cons]
        show decimalVal (natToDigitsAux fuel (n / 10)) * 10
            + ((Nat.digitChar (n % 10)).toNat - 48) = n
        rw [hval, digitChar_toNat hmod]
        omega

lemma natToDigits_spec (n : Nat) :
    natToDigits n ≠ [] ∧ allDigits (natToDigits n) ∧
      decimalVal (natToDigits n) = n :=
  natToDigitsAux_spec (n + 1) n (Nat.lt_succ_self n)

lemma represents_intToDecimalString (v : Int) :
    representsInt (intToDecimalString v) v := by
  unfold intToDecimalString
  by_cases hv : v < 0
  · rw [if_pos hv]
    refine Or.inr (Or.inr ⟨natToDigits v.natAbs, rfl, (natToDigits_spec _).1,
      (natToDigits_spec _).2.1, ?_⟩)
    rw [(natToDigits_spec v.natAbs).2.2]
    omega
  · rw [if_neg hv]
    refine Or.inl ⟨(natToDigits_spec _).1, (natToDigits_spec _).2.1, ?_⟩
    show v = ((decimalVal (natToDigits v.toNat) : Nat) : Int)
    rw [(natToDigits_spec v.toNat).2.2]
    omega

/-- C1: for every well-formed signed integer string `s` representing the
value `v` (necessarily not `"?"`), parsing `s` as a TTL annotation yields
`Ttl.Fixed v` when `v` fits the 32-bit signed range, and parsing `s` as a
Timestamp annotation yields `Timestamp.Fixed v` when `v` fits the 64-bit
signed range; and parsing the exact string `"?"` yields the
`Parameterized` variant for all three annotation kinds. -/
theorem claim_C1 (s : String) (v : Int) (h : representsInt s v) :
    (i32Min ≤ v → v ≤ i32Max → Ttl.fromStr s = .ok (.Fixed v)) ∧
    (i64Min ≤ v → v ≤ i64Max → Timestamp.fromStr s = .ok (.Fixed v)) ∧
    Ttl.fromStr "?" = .ok .Parameterized ∧
    Timestamp.fromStr "?" = .ok .Parameterized ∧
    Timeout.fromStr "?" = .ok .Parameterized :=
  ⟨fun h1 h2 => Ttl_fromStr_fixed h h1 h2,
    fun h1 h2 => Timestamp_fromStr_fixed h h1 h2, rfl, rfl, rfl⟩

/-- Witness for C1 at the concrete strings `"86400"` and `"-3"`. -/
theorem claim_C1_witness :
    Ttl.fromStr "86400" = .ok (.Fixed 86400) ∧
      Timestamp.fromStr "-3" = .ok (.Fixed (-3)) := by
  have h1 := claim_C1 "86400" 86400
    (Or.inl ⟨by decide, by decide, by decide⟩)
  have h2 := claim_C1 "-3" (-3)
    (Or.inr (Or.inr ⟨['3'], rfl, by decide, by decide, by decide⟩))
  exact ⟨h1.1 (by decide) (by decide), h2.2.1 (by decide) (by decide)⟩

/-- C2: for every table name, `query_columns` constructs exactly the
introspection query text the spec's §6 prescribes — keyspace interpolated
verbatim from the configuration collaborator, table name lower-cased —
and passes it to the execution collaborator with an empty bound-parameter
list. -/
theorem claim_C2 (env : Collaborators) (table : String) :
    introspectionQueryText env.keyspace (rustToLowercase table)
        = specIntrospectionQuery env.keyspace table ∧
    query_columns env table
        = env.sort_columns (env.query_collect_to_vec
            (specIntrospectionQuery env.keyspace table) []) :=
  ⟨rfl, rfl⟩

/-- C3: for every string that is neither `"?"` nor a well-formed signed
integer of the expected width, parsing as TTL (32-bit) or Timestamp
(64-bit) returns a parse error, while parsing the same string as Timeout
succeeds and yields `Timeout.Fixed` of the string. -/
theorem claim_C3 (s : String) (hq : s ≠ "?") :
    ((∀ v : Int, representsInt s v → ¬(i32Min ≤ v ∧ v ≤ i32Max)) →
        ∃ e, Ttl.fromStr s = .error e) ∧
    ((∀ v : Int, representsInt s v → ¬(i64Min ≤ v ∧ v ≤ i64Max)) →
        ∃ e, Timestamp.fromStr s = .error e) ∧
    Timeout.fromStr s = .ok (.Fixed s) :=
  ⟨fun h => Ttl_fromStr_error hq h, fun h => Timestamp_fromStr_error hq h,
    Timeout_fromStr_fixed hq⟩

/-- Witness for C3 at the concrete malformed string `"abc"`. -/
theorem claim_C3_witness :
    (∃ e, Ttl.fromStr "abc" = .error e) ∧
      Timeout.fromStr "abc" = .ok (.Fixed "abc") := by
  have h := claim_C3 "abc" (by decide)
  refine ⟨h.1 ?_, h.2.2⟩
  intro v hr _
  rcases hr with ⟨_, hall, _⟩ | ⟨cs, hdata, _, _, _⟩ | ⟨cs, hdata, _, _, _⟩
  · exact absurd (hall 'a' (by decide)) (by decide)
  · have h2 : ('a' :: ['b', 'c']) = '+' :: cs := hdata
    exact absurd (List.head_eq_of_cons_eq h2) (by decide)
  · have h2 : ('a' :: ['b', 'c']) = '-' :: cs := hdata
    exact absurd (List.head_eq_of_cons_eq h2) (by decide)

/-- C4: `Timeout.fromStr` is total — it returns `Ok` on every input:
`Parameterized` on exactly `"?"`, otherwise `Fixed` of the input held
verbatim; the error branch is never taken. -/
theorem claim_C4 (s : String) :
    (∃ t, Timeout.fromStr s = .ok t) ∧
    (s = "?" → Timeout.fromStr s = .ok .Parameterized) ∧
    (s ≠ "?" → Timeout.fromStr s = .ok (.Fixed s)) := by
  by_cases hq : s = "?"
  · subst hq
    exact ⟨⟨.Parameterized, rfl⟩, fun _ => rfl, fun hn => absurd rfl hn⟩
  · exact ⟨⟨.Fixed s, Timeout_fromStr_fixed hq⟩, fun hh => absurd hh hq,
      fun _ => Timeout_fromStr_fixed hq⟩

/-- Witness for C4 at the concrete strings `"?"` and `"5ms"`. -/
theorem claim_C4_witness :
    Timeout.fromStr "?" = .ok .Parameterized ∧
      Timeout.fromStr "5ms" = .ok (.Fixed "5ms") :=
  ⟨(claim_C4 "?").2.1 rfl, (claim_C4 "5ms").2.2 (by decide)⟩

/-- C5: `query_columns` returns exactly the rows produced by the execution
collaborator with the sort collaborator applied before returning, and two
calls against collaborators giving identical responses return identical
ordered sequences. -/
theorem claim_C5 (env env2 : Collaborators) (table : String)
    (hk : env.keyspace = env2.keyspace)
    (hexec : ∀ q ps, env.query_collect_to_vec q ps
        = env2.query_collect_to_vec q ps)
    (hsort : ∀ l, env.sort_columns l = env2.sort_columns l) :
    query_columns env table
        = env.sort_columns (env.query_collect_to_vec
            (introspectionQueryText env.keyspace (rustToLowercase table))
            []) ∧
    query_columns env table = query_columns env2 table := by
  refine ⟨rfl, ?_⟩
  show env.sort_columns (env.query_collect_to_vec
      (introspectionQueryText env.keyspace (rustToLowercase table)) [])
    = env2.sort_columns (env2.query_collect_to_vec
      (introspectionQueryText env2.keyspace (rustToLowercase table)) [])
  rw [hsort, hexec, hk]

/-- Witness for C5 at a concrete table and two concrete collaborator
environments giving identical responses. -/
theorem claim_C5_witness :
    query_columns envA "Person" = query_columns envB "Person" :=
  (claim_C5 envA envB "Person" rfl (fun _ _ => rfl) (fun _ => rfl)).2

/-- C6: `query_columns` is invariant under the case of its table-name
argument — lower-casing the argument first changes neither the
introspection query text nor the result. -/
theorem claim_C6 (env : Collaborators) (table : String) :
    specIntrospectionQuery env.keyspace (rustToLowercase table)
        = specIntrospectionQuery env.keyspace table ∧
    query_columns env (rustToLowercase table) = query_columns env table := by
  constructor
  · unfold specIntrospectionQuery
    rw [rustToLowercase_idem]
  · unfold query_columns introspectionQueryText
    rw [rustToLowercase_idem]

/-- C7: round-trip — rendering a fixed annotation value back to its decimal
literal and re-parsing yields an equal value, for TTL over the 32-bit
range, for Timestamp over the 64-bit range, and for Timeout on every
non-`"?"` string held verbatim. -/
theorem claim_C7 :
    (∀ n : Int, i32Min ≤ n → n ≤ i32Max →
        Ttl.fromStr (intToDecimalString n) = .ok (.Fixed n)) ∧
    (∀ n : Int, i64Min ≤ n → n ≤ i64Max →
        Timestamp.fromStr (intToDecimalString n) = .ok (.Fixed n)) ∧
    (∀ s : String, s ≠ "?" → Timeout.fromStr s = .ok (.Fixed s)) :=
  ⟨fun n h1 h2 => Ttl_fromStr_fixed (represents_intToDecimalString n) h1 h2,
    fun n h1 h2 =>
      Timestamp_fromStr_fixed (represents_intToDecimalString n) h1 h2,
    fun _ hq => Timeout_fromStr_fixed hq⟩

/-- Witness for C7 at the concrete values `5`, `-7` and the string
`"5ms"`. -/
theorem claim_C7_witness :
    Ttl.fromStr (intToDecimalString 5) = .ok (.Fixed 5) ∧
      Timestamp.fromStr (intToDecimalString (-7)) = .ok (.Fixed (-7)) ∧
      Timeout.fromStr "5ms" = .ok (.Fixed "5ms") :=
  ⟨claim_C7.1 5 (by decide) (by decide),
    claim_C7.2.1 (-7) (by decide) (by decide),
    claim_C7.2.2 "5ms" (by decide)⟩

/-- C8 counterexample: the claim "every `QueryMetadata` whose `query_type`
is `Truncate` has empty `extracted_columns` and absent `ttl`/`timestamp`"
fails on the type as defined — `truncateViolating` is a `QueryMetadata`
with `query_type = Truncate`, a nonempty `extracted_columns` and a present
`ttl`. -/
theorem claim_C8_counterexample :
    truncateViolating.query_type = QueryType.Truncate ∧
      ¬(truncateViolating.extracted_columns = [] ∧
        truncateViolating.ttl = none ∧
        truncateViolating.timestamp = none) := by
  refine ⟨rfl, ?_⟩
  intro hcon
  exact absurd hcon.1 (by decide)

/-- C8 (amended): the truncation invariant is not enforced by the
`QueryMetadata` type — a value with `query_type = Truncate` violating it
is constructible, and one satisfying it is constructible; upholding
`truncateInvariant` is a caller obligation. -/
theorem claim_C8 :
    (∃ qm : QueryMetadata,
        qm.query_type = QueryType.Truncate ∧ ¬ truncateInvariant qm) ∧
    (∃ qm : QueryMetadata,
        qm.query_type = QueryType.Truncate ∧ truncateInvariant qm) := by
  refine ⟨⟨truncateViolating, rfl, ?_⟩, ⟨truncateGood, rfl, ?_⟩⟩
  · intro hinv
    exact absurd (hinv rfl).1 (by decide)
  · intro _
    exact ⟨rfl, rfl, rfl⟩

/-- C9: the `Parameterized` variant is produced only on an exact match of
the one-character string `"?"` — for every string containing `'?'` but not
equal to `"?"`, TTL and Timestamp parsing return a parse error, and
Timeout parsing returns `Fixed` of the unchanged string, never
`Parameterized`. -/
theorem claim_C9 (s : String) (hq : s ≠ "?") (hc : '?' ∈ s.data) :
    (∃ e, Ttl.fromStr s = .error e) ∧
    (∃ e, Timestamp.fromStr s = .error e) ∧
    Timeout.fromStr s = .ok (.Fixed s) :=
  ⟨Ttl_fromStr_error hq
      (fun _ hr => absurd hr (not_represents_of_qmark_mem hc)),
    Timestamp_fromStr_error hq
      (fun _ hr => absurd hr (not_represents_of_qmark_mem hc)),
    Timeout_fromStr_fixed hq⟩

/-- Witness for C9 at the concrete string `"??"`. -/
theorem claim_C9_witness :
    (∃ e, Ttl.fromStr "??" = .error e) ∧
      Timeout.fromStr "??" = .ok (.Fixed "??") := by
  have h := claim_C9 "??" (by decide) (by decide)
  exact ⟨h.1, h.2.2⟩

/-- C10: the TTL and Timestamp parsers enforce their exact widths with no
wraparound — `"2147483648"` (one past `i32::MAX`) is a TTL overflow error
but a fixed Timestamp value, and any `Fixed` result of either parser lies
in the respective range and equals the exact represented value. -/
theorem claim_C10 :
    Ttl.fromStr "2147483648" = .error .posOverflow ∧
    Timestamp.fromStr "2147483648" = .ok (.Fixed 2147483648) ∧
    (∀ (s : String) (n : Int), Ttl.fromStr s = .ok (.Fixed n) →
        i32Min ≤ n ∧ n ≤ i32Max ∧ representsInt s n) ∧
    (∀ (s : String) (n : Int), Timestamp.fromStr s = .ok (.Fixed n) →
        i64Min ≤ n ∧ n ≤ i64Max ∧ representsInt s n) := by
  refine ⟨by decide, by decide, ?_, ?_⟩
  · intro s n h
    obtain ⟨hr, h1, h2⟩ := Ttl_fromStr_ok_fixed h
    exact ⟨h1, h2, hr⟩
  · intro s n h
    obtain ⟨hr, h1, h2⟩ := Timestamp_fromStr_ok_fixed h
    exact ⟨h1, h2, hr⟩

/-- Witness for C10 at the concrete string `"5"`. -/
theorem claim_C10_witness :
    i32Min ≤ (5 : Int) ∧ (5 : Int) ≤ i32Max ∧ representsInt "5" 5 :=
  claim_C10.2.2.1 "5" 5 (by decide)

end Catalytic
